import Mathlib

/-!
Verification of the fastestimator operation-graph and dataset-wrapping layer.

Python values are shallowly embedded as follows:
* `inputs` / `outputs` key declarations (`None`, a string, or a list of
  strings) are embedded as `List String`, with `[]` standing for the falsy
  values (`None`, `""`, `[]`) and a single string `"k"` for `["k"]`;
  Python truthiness of such a value is nonemptiness of the list.
* `mode` declarations (`None`, a string, or a list that may mix strings and
  `None`) are embedded as `PyMode`.
* a Python dict with string keys is embedded as `Dict A := List (String × A)`
  in insertion order with unique keys maintained by `dictSet`.
* a numpy 1-D array of floats is embedded as `List ℚ`; the float comparisons
  the claims exercise (0.2 vs 0.5, 0.7 vs 0.5) are exact in both ℚ and
  binary floating point, so no rounding behaviour is lost.
* a raised `AssertionError` / `KeyError` / `IndexError` is embedded as
  `Option.none` (or `false` for the boolean acceptance of a verifier).
-/

/-- Embeds the Python `mode` attribute: `None`, a single string, or a list
whose elements are strings or `None`. -/
inductive PyMode where
  | none : PyMode
  | str : String → PyMode
  | list : List (Option String) → PyMode
deriving DecidableEq

/-- The list `op_mode` produced by `get_op_from_mode`'s normalisation
`if not isinstance(op_mode, list): op_mode = [op_mode]`
(src/fastestimator/util/op.py). -/
def modeToList : PyMode → List (Option String)
  | PyMode.none => [Option.none]
  | PyMode.str s => [some s]
  | PyMode.list l => l

/-- An operation as constructed by `NumpyOp.__init__`/`TensorOp.__init__`
(src/fastestimator/util/op.py and src/fastestimator/op/numpyop): declared
input keys, output keys, mode, and a `forward` transform taking the bound
data and the execution state. `D` is the data type handed to `forward`,
`St` the state type. -/
structure NOp (D St : Type) where
  inputs : List String
  outputs : List String
  mode : PyMode
  forward : D → St → D

/- ### Nested operation lists and flatten_operation -/

/-- A Python value that is either a single op (`leaf`) or a list of such
values (`node`), the argument shape accepted by `flatten_operation`. -/
inductive Nested (α : Type) where
  | leaf : α → Nested α
  | node : List (Nested α) → Nested α

/-- The normalisation `if not isinstance(x, list): x = [x]` applied by both
steps of `flatten_operation` (src/fastestimator/util/op.py lines 24-28). -/
def wrapIfNotList {α : Type} : Nested α → List (Nested α)
  | Nested.leaf a => [Nested.leaf a]
  | Nested.node l => l

/-- Embeds `flatten_operation` (src/fastestimator/util/op.py lines 23-30):
wrap a non-list argument into a singleton list, wrap each non-list element
into a singleton list, then `chain.from_iterable`. -/
def flatten_operation {α : Type} (ops : Nested α) : List (Nested α) :=
  ((wrapIfNotList ops).map wrapIfNotList).flatten

/-- Depth-first left-to-right leaf order of a nested operation list. -/
def leaves {α : Type} : Nested α → List α
  | Nested.leaf a => [a]
  | Nested.node l => (l.attach.map (fun x => leaves x.1)).flatten
decreasing_by
  have := List.sizeOf_lt_of_mem x.2
  simp only [Nested.node.sizeOf_spec]
  omega

/-- `true` on the inputs `flatten_operation` actually flattens: a single op,
or a list whose elements are single ops or flat lists of ops (nesting depth
at most two). -/
def flattenable {α : Type} : Nested α → Bool
  | Nested.leaf _ => true
  | Nested.node l => l.all (fun x =>
      match x with
      | Nested.leaf _ => true
      | Nested.node l2 => l2.all (fun y =>
          match y with
          | Nested.leaf _ => true
          | Nested.node _ => false))

/- ### Mode filter -/

/-- Embeds `get_op_from_mode` (src/fastestimator/util/op.py lines 32-40):
keep, in order, each op whose normalised mode list contains `None` or
contains the current mode; the accumulating loop over `ops` is `filter`. -/
def get_op_from_mode {D St : Type} (ops : List (NOp D St)) (current_mode : String) :
    List (NOp D St) :=
  ops.filter (fun op =>
    (modeToList op.mode).contains Option.none
      || (modeToList op.mode).contains (some current_mode))

/- ### Python dicts with string keys -/

/-- A Python dict with string keys, in insertion order. -/
abbrev Dict (A : Type) : Type := List (String × A)

/-- `d[k]`: the value stored under `k`, or `Option.none` for a `KeyError`. -/
def dictGet {A : Type} (d : Dict A) (k : String) : Option A :=
  (List.find? (fun p => p.1 == k) d).map Prod.snd

/-- `d[k] = v`: update the existing entry in place (keeping its position) or
append a new entry, as a Python dict does. -/
def dictSet {A : Type} (d : Dict A) (k : String) (v : A) : Dict A :=
  if List.any d (fun p => p.1 == k)
  then List.map (fun p => if p.1 == k then (k, v) else p) d
  else d ++ [(k, v)]

/-- The key list of a dict, in insertion order (Python `for key in d`). -/
def dictKeys {A : Type} (d : Dict A) : List String :=
  List.map Prod.fst d

/- ### Operation-chain executor (not under src/) -/

/-- `l.mapM f` over `Option` written structurally: all lookups must succeed. -/
def mapOpt {α β : Type} (f : α → Option β) : List α → Option (List β)
  | [] => some []
  | a :: l => do
    let b ← f a
    let bs ← mapOpt f l
    pure (b :: bs)

/-- Write an op's result back into the sample mapping: for each output key,
in order, bind the corresponding result value; with no output keys the
result is discarded. -/
def writeOutputs {A : Type} (d : Dict A) (outs : List String) (vals : List A) : Dict A :=
  (outs.zip vals).foldl (fun d kv => dictSet d kv.1 kv.2) d

/-- Modelled from the spec: `forward_numpyop`
(fastestimator/op/numpyop/numpyop.py, imported by
src/fastestimator/dataset/op_dataset.py but not itself under src/).
Per spec section 4.4: apply the mode filter, then for each remaining op in
order gather the values bound to its input keys (a missing key is a
contract failure, embedded as `Option.none`; zero declared inputs means no
lookup), call `forward` with the gathered values and the execution state
(the current mode), and write the result back under the output keys. Ops
are taken in the uniform in_list/out_list convention of spec section 4.1:
`forward` receives and returns a list of arrays, one per key. -/
def forward_numpyop {A : Type} (ops : List (NOp (List A) String)) (item : Dict A)
    (mode : String) : Option (Dict A) :=
  (get_op_from_mode ops mode).foldl
    (fun acc op => do
      let d ← acc
      let data ← mapOpt (fun k => dictGet d k) op.inputs
      pure (writeOutputs d op.outputs (op.forward data mode)))
    (some item)

/- ### Batch collation (src/fastestimator/dataset/op_dataset.py) -/

/-- Modelled from the spec: `pad_batch` (fastestimator/util/util.py, imported
by src/fastestimator/dataset/op_dataset.py but not itself under src/).
Per spec section 4.5 step 3c, for arrays embedded as 1-D `List α`: for each
key, every sample's array is padded with the fill value to the maximum
length that key reaches across the batch (trailing padding, one
deterministic choice of the alignment the spec leaves open). -/
def pad_batch {α : Type} (items : List (Dict (List α))) (v : α) : List (Dict (List α)) :=
  let maxLen : String → Nat := fun k =>
    (items.map (fun it => ((dictGet it k).getD []).length)).foldl max 0
  items.map (fun it =>
    it.map (fun p => (p.1, p.2 ++ List.replicate (maxLen p.1 - p.2.length) v)))

/-- The dict comprehension
`{key: np.array([item[key] for item in items]) for key in items[0]}`
(src/fastestimator/dataset/op_dataset.py line 41): one entry per key of the
first per-sample mapping, bound to the stacked per-sample values in list
order; an empty batch or a missing key raises, embedded as `Option.none`. -/
def collate {A : Type} (items : List (Dict A)) : Option (Dict (List A)) := do
  let first ← items.head?
  mapOpt (fun k => (mapOpt (fun it => dictGet it k) items).map (fun vs => (k, vs)))
    (dictKeys first)

/-- The per-sample processing the batch branch of `OpDataset.__getitem__`
applies before collation (src/fastestimator/dataset/op_dataset.py lines
35-40): run the op chain independently on every per-sample mapping of the
retrieved batch, then pad if a pad value is configured. -/
def processedBatch {α : Type} (ops : List (NOp (List (List α)) String)) (mode : String)
    (pad_value : Option α) (items : List (Dict (List α))) : Option (List (Dict (List α))) := do
  let its ← mapOpt (fun it => forward_numpyop ops it mode) items
  pure (match pad_value with
        | some v => pad_batch its v
        | Option.none => its)

/-- The batch branch of `OpDataset.__getitem__`
(src/fastestimator/dataset/op_dataset.py lines 34-41), after the deep copy:
per-sample op execution, optional padding, then collation. -/
def opDatasetGetItemBatch {α : Type} (ops : List (NOp (List (List α)) String)) (mode : String)
    (pad_value : Option α) (items : List (Dict (List α))) : Option (Dict (List (List α))) := do
  let its ← processedBatch ops mode pad_value items
  collate its

/- ### Graph-contract verifier (src/fastestimator/util/op.py lines 42-56) -/

/-- An operation as seen by `verify_ops`: only the declared `inputs` and
`outputs` matter (the `isinstance` capability check always passes in this
model, where every list element is an op of the required family). -/
structure POp where
  inputs : List String
  outputs : List String
deriving DecidableEq

/-- The loop of `verify_ops` (src/fastestimator/util/op.py lines 50-56):
for each position with a successor whose `inputs` are truthy and different
from `inputs = ops[0].inputs` (the variable `old_inputs = op.inputs` is
assigned there but never used), assert that the current op's `outputs` are
truthy. -/
def verifyChain (firstInputs : List String) : List POp → Bool
  | a :: b :: rest =>
    (if b.inputs ≠ [] ∧ b.inputs ≠ firstInputs then b.inputs ≠ [] && a.outputs ≠ [] else true)
      && verifyChain firstInputs (b :: rest)
  | _ => true

/-- Embeds `verify_ops` (src/fastestimator/util/op.py lines 42-56) as its
acceptance predicate: `true` when every assertion passes, `false` when an
assertion (or the `ops[0]` indexing of an empty list) raises. -/
def verify_ops (ops : List POp) : Bool :=
  match ops with
  | [] => false
  | a :: rest =>
    decide (a.inputs ≠ []) &&
    decide (((a :: rest).getLast (List.cons_ne_nil a rest)).outputs ≠ []) &&
    verifyChain a.inputs (a :: rest)

/- ### OneOf (src/fastestimator/op/numpyop/meta/one_of.py) -/

/-- A constructed `OneOf`: the retained children plus the `inputs`,
`outputs` and `mode` adopted from the first child. -/
structure OneOf (D St : Type) where
  numpy_ops : List (NOp D St)
  inputs : List String
  outputs : List String
  mode : PyMode

/-- Embeds `OneOf.__init__` (src/fastestimator/op/numpyop/meta/one_of.py
lines 31-40): `Option.none` when no child is given (`numpy_ops[0]` raises)
or when some later child's `inputs`, `outputs` or `mode` differs from the
first child's (an assertion raises); otherwise the `OneOf` adopting the
first child's contract. -/
def OneOf.make {D St : Type} : List (NOp D St) → Option (OneOf D St)
  | [] => Option.none
  | o :: rest =>
    if rest.all (fun p =>
        p.inputs == o.inputs && p.outputs == o.outputs && p.mode == o.mode)
    then some ⟨o :: rest, o.inputs, o.outputs, o.mode⟩
    else Option.none

/-- Embeds `OneOf.forward` (src/fastestimator/op/numpyop/meta/one_of.py
line 53): `random.choice(self.numpy_ops).forward(data, state)`, with the
random draw made explicit as the index `k % length` of the chosen child.
The fallback branch is unreachable for a `OneOf` built by `OneOf.make`,
whose child list is never empty. -/
def OneOf.forward {D St : Type} (w : OneOf D St) (k : Nat) (data : D) (state : St) : D :=
  match w.numpy_ops.get? (k % w.numpy_ops.length) with
  | some op => op.forward data state
  | Option.none => data

/- ### Binarize (src/fastestimator/op/numpyop/univariate/binarize.py) -/

/-- A `Binarize` op: the constructor stores the threshold and declares
in_list/out_list handling. -/
structure Binarize where
  threshold : ℚ

/-- Embeds `Binarize.forward` (src/fastestimator/op/numpyop/univariate/
binarize.py lines 44-45): `[(dat >= self.threshold).astype(np.float32) for
dat in data]`, elementwise over each input array. -/
def Binarize.forward (b : Binarize) (data : List (List ℚ)) : List (List ℚ) :=
  data.map (fun dat => dat.map (fun x => if b.threshold ≤ x then 1 else 0))

/-- A `Binarize` packaged as an executor op with the given keys and mode;
`forward` ignores the execution state as the source method does. -/
def binarizeOp (t : ℚ) (ins outs : List String) (m : PyMode) : NOp (List (List ℚ)) String :=
  ⟨ins, outs, m, fun data _ => Binarize.forward ⟨t⟩ data⟩

/- ### Heap model for deep-copy isolation -/

/-- A heap of Python dict objects; a reference is an index into the heap.
Used to make aliasing between the wrapped dataset's stored items and the
values handed out by `OpDataset.__getitem__` observable. -/
abbrev Heap (A : Type) : Type := List (Dict A)

/-- An `OpDataset` wrapping an item-level dataset
(src/fastestimator/dataset/op_dataset.py lines 27-32): the wrapped
dataset's per-index item references, the op list, and the bound mode. -/
structure OpDatasetH (A : Type) where
  datasetRefs : List Nat
  ops : List (NOp (List A) String)
  mode : String

/-- The item-level branch of `OpDataset.__getitem__`
(src/fastestimator/dataset/op_dataset.py lines 34-35 and 42-44) over the
heap model: fetch the wrapped dataset's item reference for `index`, read
the stored dict, deep-copy it into a freshly allocated cell, run the op
chain on the copy (in-place mutation of the fresh cell), and hand back the
fresh reference together with the updated heap. The op chain is the
spec-modelled `forward_numpyop`. -/
def getItemH {A : Type} (ds : OpDatasetH A) (h : Heap A) (index : Nat) :
    Option (Nat × Heap A) := do
  let r ← ds.datasetRefs.get? index
  let item ← h.get? r
  let item1 ← forward_numpyop ds.ops item ds.mode
  pure (h.length, (h ++ [item]).set h.length item1)

/- ### Helper lemmas -/

/-- Unfolds `leaves` at a `leaf`. -/
theorem leaves_leaf {α : Type} (a : α) : leaves (Nested.leaf a) = [a] := by
  rw [leaves]

/-- Unfolds `leaves` at a `node` to the flattened per-element leaf lists. -/
theorem leaves_node {α : Type} (l : List (Nested α)) :
    leaves (Nested.node l) = (l.map leaves).flatten := by
  rw [leaves]
  congr 1
  exact List.attach_map_coe l leaves

/-- A two-level list whose inner elements are all single ops collapses to
itself when its leaves are re-wrapped. -/
theorem allLeaf_flatten_leaves {α : Type} (l2 : List (Nested α))
    (h : l2.all (fun y =>
      match y with
      | Nested.leaf _ => true
      | Nested.node _ => false) = true) :
    ((l2.map leaves).flatten).map Nested.leaf = l2 := by
  induction l2 with
  | nil => rfl
  | cons y t ih =>
    rw [List.all_cons, Bool.and_eq_true] at h
    cases y with
    | leaf a =>
      simp only [List.map_cons, List.flatten_cons, List.map_append]
      rw [ih h.2, leaves_leaf]
      rfl
    | node l3 => cases h.1

/- ### Claim C2: flatten_operation -/

/-- C2 counterexample: on the triply nested list `[[[op]]]`,
`flatten_operation` stops after removing two levels and returns `[[op]]`,
not the depth-first leaf order `[op]`; so the claim fails for arbitrary
nesting. -/
theorem flatten_operation_depth3_cex :
    flatten_operation (Nested.node [Nested.node [Nested.node [Nested.leaf (0 : Nat)]]]) ≠
      (leaves (Nested.node [Nested.node [Nested.node [Nested.leaf (0 : Nat)]]])).map
        Nested.leaf := by
  have hl : leaves (Nested.node [Nested.node [Nested.node [Nested.leaf (0 : Nat)]]]) =
      [0] := by
    simp [leaves_node, leaves_leaf]
  rw [hl]
  rw [show flatten_operation
        (Nested.node [Nested.node [Nested.node [Nested.leaf (0 : Nat)]]]) =
        [Nested.node [Nested.leaf (0 : Nat)]] from rfl]
  simp

/-- C2 (amended): for every nesting `flatten_operation` accepts of depth at
most two — a single op, or a list whose elements are single ops or flat
lists of ops — the result is the flat depth-first left-to-right leaf order
of the input, preserving the relative order of the leaf operations. -/
theorem flatten_operation_flattens {α : Type} (L : Nested α)
    (h : flattenable L = true) :
    flatten_operation L = (leaves L).map Nested.leaf := by
  cases L with
  | leaf a => rw [flatten_operation, leaves_leaf]; rfl
  | node l =>
    rw [flatten_operation, leaves_node]
    show (l.map wrapIfNotList).flatten = ((l.map leaves).flatten).map Nested.leaf
    rw [List.map_flatten, List.map_map]
    rw [flattenable] at h
    congr 1
    apply List.map_congr_left
    intro x hx
    have hex := List.all_eq_true.mp h x hx
    cases x with
    | leaf a =>
      show [Nested.leaf a] = (leaves (Nested.leaf a)).map Nested.leaf
      rw [leaves_leaf]
      rfl
    | node l2 =>
      show l2 = (leaves (Nested.node l2)).map Nested.leaf
      rw [leaves_node, allLeaf_flatten_leaves l2 hex]

/-- C2 witness: a mixed two-level nesting flattens to its leaf order. -/
theorem flatten_operation_flattens_witness :
    flatten_operation
        (Nested.node [Nested.leaf (1 : Nat),
          Nested.node [Nested.leaf 2, Nested.leaf 3]]) =
      (leaves (Nested.node [Nested.leaf (1 : Nat),
          Nested.node [Nested.leaf 2, Nested.leaf 3]])).map Nested.leaf :=
  flatten_operation_flattens _ rfl

/- ### Claim C4: the mode filter is idempotent and order-preserving -/

/-- C4: filtering an op list by a mode twice gives the same result as
filtering once, and the result is an ordered sublist of the original list
(so relative order is preserved). -/
theorem get_op_from_mode_idempotent {D St : Type} (ops : List (NOp D St)) (m : String) :
    get_op_from_mode (get_op_from_mode ops m) m = get_op_from_mode ops m ∧
      List.Sublist (get_op_from_mode ops m) ops := by
  constructor
  · rw [get_op_from_mode, get_op_from_mode, List.filter_filter]
    congr 1
    funext op
    rw [Bool.and_self]
  · exact List.filter_sublist ops

/- ### Claim C9: None inside a mode list is a wildcard -/

/-- C9: an op whose declared mode is a list containing `None` is selected
by `get_op_from_mode` for every target mode, wherever it occurs in the op
list. -/
theorem get_op_from_mode_none_in_list {D St : Type} (op : NOp D St)
    (l : List (Option String)) (hm : op.mode = PyMode.list l)
    (hn : Option.none ∈ l) (ops : List (NOp D St)) (hin : op ∈ ops) (m : String) :
    op ∈ get_op_from_mode ops m := by
  rw [get_op_from_mode]
  apply List.mem_filter.mpr
  refine ⟨hin, ?_⟩
  rw [hm, modeToList]
  have hc : List.contains l Option.none = true := List.elem_eq_true_of_mem hn
  rw [hc, Bool.true_or]

/-- A concrete op whose mode list mixes `None` with a mode string. -/
def wildcardOp : NOp Unit Unit :=
  ⟨["x"], ["y"], PyMode.list [Option.none, some "eval"], fun d _ => d⟩

/-- C9 witness: `wildcardOp` survives filtering for the unrelated mode
`"train"`. -/
theorem get_op_from_mode_none_in_list_witness :
    wildcardOp ∈ get_op_from_mode [wildcardOp] "train" :=
  get_op_from_mode_none_in_list wildcardOp [Option.none, some "eval"] rfl
    (List.mem_cons_self _ _) [wildcardOp] (List.mem_singleton.mpr rfl) "train"

/- ### Claim C7: boundary checks of the verifier -/

/-- C7: a list accepted by `verify_ops` has a first op with truthy `inputs`
and a last op with truthy `outputs`; a list whose first op has empty
`inputs`, or whose last op has empty `outputs`, is rejected. -/
theorem verify_ops_boundary (ops : List POp) :
    (verify_ops ops = true →
      (∃ a, ops.head? = some a ∧ a.inputs ≠ []) ∧
      (∃ b, ops.getLast? = some b ∧ b.outputs ≠ [])) ∧
    (∀ a, ops.head? = some a → a.inputs = [] → verify_ops ops = false) ∧
    (∀ b, ops.getLast? = some b → b.outputs = [] → verify_ops ops = false) := by
  match ops with
  | [] =>
    refine ⟨?_, ?_, ?_⟩
    · intro hv; cases hv
    · intro a ha; cases ha
    · intro b hb; cases hb
  | a :: rest =>
    have hlast : (a :: rest).getLast? = some ((a :: rest).getLast (List.cons_ne_nil a rest)) :=
      List.getLast?_eq_getLast _ _
    refine ⟨?_, ?_, ?_⟩
    · intro hv
      rw [verify_ops, Bool.and_assoc, Bool.and_eq_true, Bool.and_eq_true,
        decide_eq_true_eq, decide_eq_true_eq] at hv
      exact ⟨⟨a, rfl, hv.1⟩, ⟨_, hlast, hv.2.1⟩⟩
    · intro x hx hempty
      rw [List.head?_cons, Option.some_inj] at hx
      subst hx
      rw [verify_ops, hempty]
      rfl
    · intro b hb hempty
      rw [hlast, Option.some_inj] at hb
      rw [verify_ops, hb, hempty]
      simp

/- ### Claim C1: the adjacent-pair rule of the verifier -/

/-- C1: `verify_ops` accepts this list even though the adjacent pair at
positions 1 and 2 has `ops[2].inputs = ["x"]` different from
`ops[1].inputs = ["y"]` while `ops[1].outputs` is empty: the loop compares
each successor's inputs against `ops[0].inputs` (the assigned-but-unused
`old_inputs = op.inputs` marks the spot where the previous op's inputs were
meant to be used), so the violation described by the claim and by the
assertion's own message goes undetected. -/
theorem verify_ops_accepts_lost_interior_result :
    verify_ops [⟨["x"], ["y"]⟩, ⟨["y"], []⟩, ⟨["x"], ["z"]⟩] = true ∧
    ([⟨["x"], ["y"]⟩, ⟨["y"], []⟩, ⟨["x"], ["z"]⟩] : List POp).get? 1 = some ⟨["y"], []⟩ ∧
    ([⟨["x"], ["y"]⟩, ⟨["y"], []⟩, ⟨["x"], ["z"]⟩] : List POp).get? 2 = some ⟨["x"], ["z"]⟩ ∧
    (["x"] : List String) ≠ ["y"] := by
  refine ⟨?_, rfl, rfl, by decide⟩
  rfl

/- ### Claim C5: OneOf construction -/

/-- C5: `OneOf.make` on a nonempty child list succeeds exactly when every
later child's `inputs`, `outputs` and `mode` equal the first child's, and
on success the `OneOf` adopts those shared values as its own. -/
theorem OneOf_make_shared_contract {D St : Type} (o : NOp D St) (rest : List (NOp D St)) :
    ((OneOf.make (o :: rest)).isSome = true ↔
      ∀ p ∈ rest, p.inputs = o.inputs ∧ p.outputs = o.outputs ∧ p.mode = o.mode) ∧
    (∀ w, OneOf.make (o :: rest) = some w →
      w.inputs = o.inputs ∧ w.outputs = o.outputs ∧ w.mode = o.mode) := by
  have hcond : (rest.all (fun p =>
      p.inputs == o.inputs && p.outputs == o.outputs && p.mode == o.mode)) = true ↔
      ∀ p ∈ rest, p.inputs = o.inputs ∧ p.outputs = o.outputs ∧ p.mode = o.mode := by
    rw [List.all_eq_true]
    constructor
    · intro h p hp
      have := h p hp
      rw [Bool.and_eq_true, Bool.and_eq_true, beq_iff_eq, beq_iff_eq, beq_iff_eq] at this
      exact ⟨this.1.1, this.1.2, this.2⟩
    · intro h p hp
      have := h p hp
      rw [Bool.and_eq_true, Bool.and_eq_true, beq_iff_eq, beq_iff_eq, beq_iff_eq]
      exact ⟨⟨this.1, this.2.1⟩, this.2.2⟩
  constructor
  · rw [OneOf.make]
    by_cases hc : (rest.all (fun p =>
        p.inputs == o.inputs && p.outputs == o.outputs && p.mode == o.mode)) = true
    · rw [if_pos hc]
      simpa using hcond.mp hc
    · rw [if_neg hc]
      simp only [Option.isSome_none, Bool.false_eq_true, false_iff]
      intro hall
      exact hc (hcond.mpr hall)
  · intro w hw
    rw [OneOf.make] at hw
    by_cases hc : (rest.all (fun p =>
        p.inputs == o.inputs && p.outputs == o.outputs && p.mode == o.mode)) = true
    · rw [if_pos hc, Option.some_inj] at hw
      subst hw
      exact ⟨rfl, rfl, rfl⟩
    · rw [if_neg hc] at hw
      cases hw

/-- A concrete op used to instantiate the OneOf claims. -/
def plainOp : NOp Unit Unit := ⟨["x"], ["y"], PyMode.str "train", fun d _ => d⟩

/-- C5 witness: two children with identical contracts construct
successfully. -/
theorem OneOf_make_shared_contract_witness :
    (OneOf.make [plainOp, plainOp]).isSome = true :=
  (OneOf_make_shared_contract plainOp [plainOp]).1.mpr
    (by
      intro p hp
      rw [List.mem_singleton] at hp
      subst hp
      exact ⟨rfl, rfl, rfl⟩)

/- ### Claim C10: a singleton OneOf behaves as its child -/

/-- C10: `OneOf.make` on exactly one child always succeeds, and the
resulting `OneOf.forward` returns the child's `forward` on every data,
state and random draw. -/
theorem OneOf_singleton_is_child {D St : Type} (op : NOp D St) :
    ∃ w, OneOf.make [op] = some w ∧
      ∀ k data state, OneOf.forward w k data state = op.forward data state := by
  refine ⟨⟨[op], op.inputs, op.outputs, op.mode⟩, ?_, ?_⟩
  · rw [OneOf.make]
    rfl
  · intro k data state
    rw [OneOf.forward]
    simp [Nat.mod_one]

/- ### Claim C8: Binarize at threshold 0.5 -/

/-- Pointwise description of binarizing one array: each element below the
threshold goes to 0, each element not below it goes to 1. -/
theorem binarize_pointwise (t : ℚ) (xs : List ℚ) :
    List.Forall₂ (fun x y => (x < t → y = 0) ∧ (t ≤ x → y = 1)) xs
      (xs.map (fun x => if t ≤ x then (1 : ℚ) else 0)) := by
  induction xs with
  | nil => exact List.Forall₂.nil
  | cons x l ih =>
    rw [List.map_cons]
    refine List.Forall₂.cons ⟨?_, ?_⟩ ih
    · intro hlt
      rw [if_neg (not_le.mpr hlt)]
    · intro hle
      rw [if_pos hle]

/-- C8: `Binarize.forward` with threshold 1/2 sends every element not less
than 1/2 to 1 and every element less than 1/2 to 0, elementwise over every
array; run through the op chain on the sample `x = [0.2, 0.7]` with inputs
`"x"` and outputs `"y"`, the result keeps the original `"x"` and adds
`"y" = [0, 1]`. -/
theorem binarize_half_threshold :
    (∀ data : List (List ℚ),
      List.Forall₂
        (List.Forall₂ (fun x y => (x < 1/2 → y = 0) ∧ (1/2 ≤ x → y = 1)))
        data (Binarize.forward ⟨1/2⟩ data)) ∧
    forward_numpyop [binarizeOp (1/2) ["x"] ["y"] PyMode.none]
        [("x", [1/5, 7/10])] "train" =
      some [("x", [1/5, 7/10]), ("y", [0, 1])] := by
  constructor
  · intro data
    rw [Binarize.forward]
    induction data with
    | nil => exact List.Forall₂.nil
    | cons xs l ih =>
      rw [List.map_cons]
      exact List.Forall₂.cons (binarize_pointwise _ xs) ih
  · have h1 : ¬ ((1 : ℚ)/2 ≤ 1/5) := by norm_num
    have h2 : (1 : ℚ)/2 ≤ 7/10 := by norm_num
    simp [forward_numpyop, get_op_from_mode, modeToList, binarizeOp, Binarize.forward,
      mapOpt, dictGet, writeOutputs, dictSet, h1, h2]
    norm_num

/-- C8 witness: the general pointwise property evaluated on one array. -/
theorem binarize_half_threshold_witness :
    List.Forall₂
      (List.Forall₂ (fun x y => (x < 1/2 → y = 0) ∧ (1/2 ≤ x → y = 1)))
      [[(3 : ℚ)/5]] (Binarize.forward ⟨1/2⟩ [[(3 : ℚ)/5]]) :=
  binarize_half_threshold.1 [[(3 : ℚ)/5]]

/- ### Claim C3: batch collation -/

/-- `mapOpt` succeeds and returns the pointwise values whenever every
application succeeds. -/
theorem mapOpt_eq_map {α β : Type} (f : α → Option β) (d : β) (l : List α)
    (h : ∀ a ∈ l, (f a).isSome = true) :
    mapOpt f l = some (l.map (fun a => (f a).getD d)) := by
  induction l with
  | nil => rfl
  | cons a t ih =>
    obtain ⟨b, hb⟩ := Option.isSome_iff_exists.mp (h a (List.mem_cons_self a t))
    have ht := ih (fun x hx => h x (List.mem_cons_of_mem a hx))
    simp [mapOpt, hb, ht]

/-- C3: when the per-sample op runs succeed and every key of the first
processed per-sample mapping is present in all of them, the batch branch of
`OpDataset.__getitem__` returns one mapping whose keys are exactly the key
set of the first per-sample mapping, each key bound to the stack of that
key's values across every per-sample mapping in list order. -/
theorem opDataset_batch_collates {α : Type} (ops : List (NOp (List (List α)) String))
    (mode : String) (pad_value : Option α) (items : List (Dict (List α)))
    (first : Dict (List α)) (rest : List (Dict (List α)))
    (hp : processedBatch ops mode pad_value items = some (first :: rest))
    (hk : ∀ k ∈ dictKeys first, ∀ it ∈ first :: rest, (dictGet it k).isSome = true) :
    opDatasetGetItemBatch ops mode pad_value items =
      some ((dictKeys first).map (fun k =>
        (k, (first :: rest).map (fun it => (dictGet it k).getD [])))) := by
  have hinner : ∀ k ∈ dictKeys first,
      mapOpt (fun it => dictGet it k) (first :: rest) =
        some ((first :: rest).map (fun it => (dictGet it k).getD [])) :=
    fun k hkk => mapOpt_eq_map _ [] _ (hk k hkk)
  have houter : mapOpt (fun k =>
        (mapOpt (fun it => dictGet it k) (first :: rest)).map (fun vs => (k, vs)))
        (dictKeys first) =
      some ((dictKeys first).map (fun k =>
        (k, (first :: rest).map (fun it => (dictGet it k).getD [])))) := by
    have h1 : ∀ k ∈ dictKeys first,
        ((mapOpt (fun it => dictGet it k) (first :: rest)).map
          (fun vs => (k, vs))).isSome = true := by
      intro k hkk
      rw [hinner k hkk]
      rfl
    rw [mapOpt_eq_map _ ("", []) _ h1]
    congr 1
    apply List.map_congr_left
    intro k hkk
    rw [hinner k hkk]
    rfl
  simp only [opDatasetGetItemBatch, hp, Option.bind_eq_bind, Option.some_bind,
    collate, List.head?_cons]
  exact houter

/-- C3 witness: an op-free batch of two samples with key `"x"` collates
into one mapping stacking the two values in list order. -/
theorem opDataset_batch_collates_witness :
    opDatasetGetItemBatch ([] : List (NOp (List (List Nat)) String)) "train"
        Option.none [[("x", [1])], [("x", [2])]] =
      some [("x", [[1], [2]])] := by
  have hres := opDataset_batch_collates ([] : List (NOp (List (List Nat)) String))
    "train" Option.none [[("x", [1])], [("x", [2])]] [("x", [1])] [[("x", [2])]]
    rfl (by decide)
  exact hres

/- ### Claim C6: deep-copy isolation -/

/-- Overwriting the freshly appended cell rewrites the append. -/
theorem set_append_singleton {α : Type} (l : List α) (x y : α) :
    (l ++ [x]).set l.length y = l ++ [y] := by
  induction l with
  | nil => rfl
  | cons a t ih => simp [List.set, ih]

/-- C6: after a successful `getItemH` call that returned reference `r1` and
heap `h1`, overwriting the returned cell with an arbitrary mutated mapping
`m` (1) leaves the wrapped dataset's stored item for that index exactly as
it was before the call, and (2) a second `getItemH` call on the same index
still succeeds and its returned cell holds the same value the first call
returned — the deep copy isolates the caller and the op chain from the
dataset's storage. -/
theorem opDataset_deepcopy_isolation {A : Type} (ds : OpDatasetH A) (h : Heap A)
    (i r1 : Nat) (h1 : Heap A) (m : Dict A)
    (hrun : getItemH ds h i = some (r1, h1)) :
    (∀ r, ds.datasetRefs.get? i = some r → (h1.set r1 m).get? r = h.get? r) ∧
    (∃ r2 h3, getItemH ds (h1.set r1 m) i = some (r2, h3) ∧
      h3.get? r2 = h1.get? r1) := by
  simp only [getItemH] at hrun
  cases e1 : ds.datasetRefs.get? i with
  | none =>
    rw [e1] at hrun
    simp at hrun
  | some r =>
    rw [e1] at hrun
    simp only [Option.bind_eq_bind, Option.some_bind] at hrun
    cases e2 : h.get? r with
    | none =>
      rw [e2] at hrun
      simp at hrun
    | some item =>
      rw [e2] at hrun
      simp only [Option.bind_eq_bind, Option.some_bind] at hrun
      cases e3 : forward_numpyop ds.ops item ds.mode with
      | none =>
        rw [e3] at hrun
        simp at hrun
      | some item1 =>
        rw [e3] at hrun
        simp only [Option.bind_eq_bind, Option.some_bind, Option.pure_def,
          Option.some_inj, Prod.mk.injEq] at hrun
        obtain ⟨hr1, hh1⟩ := hrun
        subst hr1
        subst hh1
        have hlt : r < h.length := by
          rcases List.get?_eq_some.mp e2 with ⟨hlt, _⟩
          exact hlt
        have hS : ((h ++ [item]).set h.length item1).set h.length m = h ++ [m] := by
          rw [set_append_singleton, set_append_singleton]
        have hfirst : (h ++ [item]).set h.length item1 = h ++ [item1] :=
          set_append_singleton h item item1
        constructor
        · intro r' hr'
          injection hr' with hr'
          subst hr'
          rw [hS, List.get?_append hlt]
        · refine ⟨(h ++ [m]).length, (h ++ [m]) ++ [item1], ?_, ?_⟩
          · have hget : (h ++ [m]).get? r = some item := by
              rw [List.get?_append hlt]
              exact e2
            simp only [getItemH, hS, e1, hget, e3, Option.bind_eq_bind, Option.some_bind]
            rw [set_append_singleton]
            rfl
          · rw [List.get?_concat_length, hfirst, List.get?_concat_length]

/-- C6 witness: a one-item dataset with an empty op chain; overwriting the
returned cell neither changes the stored item nor the second call's
result. -/
theorem opDataset_deepcopy_isolation_witness :
    (∀ r, (OpDatasetH.mk [0] ([] : List (NOp (List Nat) String)) "train").datasetRefs.get? 0 =
        some r →
      ((([[("x", 5)], [("x", 5)]] : Heap Nat).set 1 [("x", 99)]).get? r =
        ([[("x", 5)]] : Heap Nat).get? r)) ∧
    (∃ r2 h3, getItemH (OpDatasetH.mk [0] ([] : List (NOp (List Nat) String)) "train")
        (([[("x", 5)], [("x", 5)]] : Heap Nat).set 1 [("x", 99)]) 0 = some (r2, h3) ∧
      h3.get? r2 = ([[("x", 5)], [("x", 5)]] : Heap Nat).get? 1) :=
  opDataset_deepcopy_isolation (OpDatasetH.mk [0] [] "train") [[("x", 5)]] 0 1
    [[("x", 5)], [("x", 5)]] [("x", 99)] rfl

/-- C7 witness: a singleton list whose op declares empty inputs is
rejected. -/
theorem verify_ops_boundary_witness :
    verify_ops [⟨[], ["y"]⟩] = false :=
  (verify_ops_boundary [⟨[], ["y"]⟩]).2.1 ⟨[], ["y"]⟩ rfl rfl
